import Mathlib

/-!
# Verification of the `supabase-camel` case-converting query façade

A shallow embedding of the camelCase/snake_case query façade of the
`pixpilot/supabase-toolkit` repository (package `packages/supabase-camel`),
covering:

* the column-name converter `convertColumnToSnakeCase` with its exclusion
  rules (dynamic-interception strategy);
* the positional argument classifier of `createQueryProxy`;
* the thenable terminal interception that transforms result envelopes;
* the optional proxy identity cache (`cacheProxies: true`);
* the explicit-builder strategy (`CamelCaseTableQueryBuilder`,
  `BaseFilterBuilder`, `CamelCaseSelectQueryBuilder`) with its eager,
  shared-handle filter invocation and deferred terminal `select`.

JavaScript runtime values are embedded as the inductive `JSValue`; plain
objects carry their own enumerable properties as an ordered association
list, and non-plain objects (`Date`, `AbortSignal`, binary blobs, ...) are
embedded as the opaque constructor `vSpecial`.
-/

/-- Embedding of the JavaScript values the façade manipulates.  `vObj` is a
plain object (prototype `Object.prototype`) given by its own enumerable
properties in insertion order; `vArr` is an array; `vSym` is a symbol with
its description; `vSpecial` is a non-plain object such as a `Date` or an
`AbortSignal`, identified by a tag and never traversed. -/
inductive JSValue where
  | vNull : JSValue
  | vUndefined : JSValue
  | vBool : Bool → JSValue
  | vInt : Int → JSValue
  | vStr : String → JSValue
  | vSym : String → JSValue
  | vObj : List (String × JSValue) → JSValue
  | vArr : List JSValue → JSValue
  | vSpecial : String → JSValue

/-- `true` exactly when the value is loosely equal to `null` in JavaScript
(`arg != null` is `false`), i.e. for `null` and `undefined`. -/
def isNullish : JSValue → Bool
  | JSValue.vNull => true
  | JSValue.vUndefined => true
  | _ => false

/-- Whether a two-character sequence `a b` occurs consecutively in a list of
characters; embeds JavaScript `String.prototype.includes` for the
two-character needles `'->'` and `'::'`. -/
def hasSub2 (a b : Char) : List Char → Bool
  | [] => false
  | [_] => false
  | x :: y :: rest => (x = a && y = b) || hasSub2 a b (y :: rest)

/-- Modelled from the spec: the camel→snake word conversion used by
`keysToSnakeCase` of the external `@pixpilot/object` package (absent from
this repository's sources).  Spec §4.1: "insert `_` before each uppercase
letter not at position 0, then lowercase all letters."  This helper handles
every position except position 0. -/
def snakeTailChars : List Char → List Char
  | [] => []
  | c :: rest =>
    if c.isUpper then '_' :: c.toLower :: snakeTailChars rest
    else c.toLower :: snakeTailChars rest

/-- Modelled from the spec: `toBackingCase` (camel → snake) of §4.1, the
per-key conversion of the missing `@pixpilot/object` `keysToSnakeCase`:
insert `_` before each uppercase letter not at position 0, then lowercase
all letters. -/
def toBackingCase (s : String) : String :=
  match s.data with
  | [] => ""
  | c :: rest => String.mk (c.toLower :: snakeTailChars rest)

/-- Modelled from the spec: the snake→camel character scan of §4.1 — "for
each `_` followed by a letter, delete the `_` and uppercase the following
letter". -/
def camelChars : List Char → List Char
  | [] => []
  | '_' :: rest =>
    match rest with
    | [] => ['_']
    | c :: rest2 =>
      if c.isAlpha then c.toUpper :: camelChars rest2
      else '_' :: camelChars (c :: rest2)
  | c :: rest => c :: camelChars rest

/-- Modelled from the spec: `toCallerCase` (snake → camel) of §4.1, the
per-key conversion of the missing `@pixpilot/object` `keysToCamelCase`. -/
def toCallerCase (s : String) : String :=
  String.mk (camelChars s.data)

mutual
/-- Modelled from the spec: the recursive key converter `keysToSnakeCase` of
the external `@pixpilot/object` package (§4.1): plain objects are cloned
with every own key converted to the backing convention, arrays are mapped
recursively, `null`/`undefined` and non-plain objects are returned
unchanged. -/
def keysToSnakeCase : JSValue → JSValue
  | JSValue.vObj fields => JSValue.vObj (snakeCaseFields fields)
  | JSValue.vArr elems => JSValue.vArr (snakeCaseElems elems)
  | v => v

/-- Key-converting clone of a plain object's property list (backing
convention). -/
def snakeCaseFields : List (String × JSValue) → List (String × JSValue)
  | [] => []
  | (k, v) :: rest => (toBackingCase k, keysToSnakeCase v) :: snakeCaseFields rest

/-- Element-wise conversion of an array (backing convention). -/
def snakeCaseElems : List JSValue → List JSValue
  | [] => []
  | v :: rest => keysToSnakeCase v :: snakeCaseElems rest
end

mutual
/-- Modelled from the spec: the recursive key converter `keysToCamelCase` of
the external `@pixpilot/object` package (§4.1), the inverse direction of
`keysToSnakeCase`. -/
def keysToCamelCase : JSValue → JSValue
  | JSValue.vObj fields => JSValue.vObj (camelCaseFields fields)
  | JSValue.vArr elems => JSValue.vArr (camelCaseElems elems)
  | v => v

/-- Key-converting clone of a plain object's property list (caller
convention). -/
def camelCaseFields : List (String × JSValue) → List (String × JSValue)
  | [] => []
  | (k, v) :: rest => (toCallerCase k, keysToCamelCase v) :: camelCaseFields rest

/-- Element-wise conversion of an array (caller convention). -/
def camelCaseElems : List JSValue → List JSValue
  | [] => []
  | v :: rest => keysToCamelCase v :: camelCaseElems rest
end

/-- A column reference as received by the column conversion helper of the
dynamic-interception strategy: `column: string | symbol`. -/
inductive ColumnRef where
  | str : String → ColumnRef
  | sym : String → ColumnRef

/-- The exclusion test of `convertColumnToSnakeCase` (dynamic strategy):
the wildcard `'*'`, a string already containing `'_'`, or a string
containing `'('`, `')'`, `'.'`, `'->'` or `'::'` is a special pattern that
must not be case-converted. -/
def isSpecialColumnPattern (c : String) : Bool :=
  c = "*" || c.data.contains '_' || c.data.contains '(' || c.data.contains ')' ||
    c.data.contains '.' || hasSub2 '-' '>' c.data || hasSub2 ':' ':' c.data

/-- The regex replacement `column.replace(/[A-Z]/gu, l => '_' + l.toLowerCase())`
of `convertColumnToSnakeCase`: every ASCII uppercase letter, at any
position, is replaced by `'_'` followed by its lowercase form. -/
def replaceUpperChars : List Char → List Char
  | [] => []
  | c :: rest =>
    if c.isUpper then '_' :: c.toLower :: replaceUpperChars rest
    else c :: replaceUpperChars rest

/-- `convertColumnToSnakeCase` of the dynamic-interception strategy: a
symbol is stringified via `String(column)`; a string matching one of the
special patterns is returned unchanged; any other string has each uppercase
letter replaced by `'_'` plus its lowercase form. -/
def convertColumnToSnakeCase : ColumnRef → String
  | ColumnRef.sym d => "Symbol(" ++ d ++ ")"
  | ColumnRef.str c =>
    if isSpecialColumnPattern c then c
    else String.mk (replaceUpperChars c.data)

/-- The per-argument classification of `createQueryProxy`
(`args.map((arg, index) => ...)`): only a non-nullish first argument is
inspected — a string becomes a converted column reference, a plain object
or an array has its keys recursively converted to the backing convention,
anything else (and every later argument) passes through unchanged. -/
def processArg (index : Nat) (arg : JSValue) : JSValue :=
  if index = 0 && !isNullish arg then
    match arg with
    | JSValue.vStr s => JSValue.vStr (convertColumnToSnakeCase (ColumnRef.str s))
    | JSValue.vObj fields => keysToSnakeCase (JSValue.vObj fields)
    | JSValue.vArr elems => keysToSnakeCase (JSValue.vArr elems)
    | v => v
  else arg

/-- `List.map` with the element index, embedding JavaScript's
`Array.prototype.map((arg, index) => ...)`. -/
def mapWithIndexFrom (f : Nat → JSValue → JSValue) (i : Nat) : List JSValue → List JSValue
  | [] => []
  | a :: rest => f i a :: mapWithIndexFrom f (i + 1) rest

/-- The `processedArgs` computation of `createQueryProxy`. -/
def processArgs (args : List JSValue) : List JSValue :=
  mapWithIndexFrom processArg 0 args

/-- The Supabase result envelope `{ data, error, count, status, statusText }`
(`PostgrestResponse`). -/
structure Envelope where
  data : JSValue
  error : JSValue
  count : JSValue
  status : Int
  statusText : String

/-- The envelope transformation shared by the `then` interception of
`createQueryProxy` and the explicit builders' `then`:
`{ ...result, data: result.data != null ? keysToCamelCase(result.data) : null }`.
The spread keeps `error`, `count`, `status` and `statusText` as they are. -/
def transformEnvelope (r : Envelope) : Envelope :=
  { r with data := if isNullish r.data then JSValue.vNull else keysToCamelCase r.data }

/-- The settled outcome of the promise returned by the proxy's intercepted
`then` (`createQueryProxy`, `prop === 'then'` branch), as a function of the
settled outcome of the underlying terminal call: the caller-supplied
`onrejected` is handed to the underlying `then` unchanged, so a rejection
reaches the caller with the same reason; a resolution is transformed by
`transformEnvelope` before reaching `onfulfilled`. -/
def proxyThen (outcome : Except JSValue Envelope) : Except JSValue Envelope :=
  match outcome with
  | Except.error e => Except.error e
  | Except.ok r => Except.ok (transformEnvelope r)

/-- The settled outcome of the promise returned by
`CamelCaseSelectQueryBuilder.then` (explicit-builder strategy), as a
function of the settled outcome of `originalTable.select(this.query)`: the
`async` method re-throws a rejection of the awaited call unchanged, and
resolves with the transformed envelope otherwise. -/
def selectBuilderAwait (outcome : Except JSValue Envelope) : Except JSValue Envelope :=
  match outcome with
  | Except.error e => Except.error e
  | Except.ok r => Except.ok (transformEnvelope r)

/-- The value produced by invoking a method on an underlying query-builder
object: either another object (`result != null && typeof result === 'object'`
— a further query-builder handle, a thenable, ...) or a non-object value. -/
inductive CallResult (B : Type) where
  | obj : B → CallResult B
  | prim : JSValue → CallResult B

/-- A façade produced by `createQueryProxy` (cacheless path): a proxy whose
target is the wrapped underlying object. -/
structure Facade (B : Type) where
  underlying : B

/-- `createQueryProxy(queryBuilder)` without a proxy cache: wrap the given
underlying object in a fresh proxy. -/
def createQueryProxy {B : Type} (b : B) : Facade B :=
  { underlying := b }

/-- One intercepted method invocation through the façade, given the
behaviour `call` of the underlying objects: the handler's wrapped function
(1) converts the arguments via `processedArgs`, (2) invokes the original
method on the underlying receiver, and (3) re-wraps an object result via
`createQueryProxy` while returning a non-object result unchanged. -/
def proxyInvoke {B : Type} (call : B → String → List JSValue → CallResult B)
    (f : Facade B) (m : String) (args : List JSValue) : CallResult (Facade B) :=
  match call f.underlying m (processArgs args) with
  | CallResult.obj r => CallResult.obj (createQueryProxy r)
  | CallResult.prim v => CallResult.prim v

/-- An underlying query-builder modelled as a recorder, in the style of the
repository's own test mocks: it remembers every method invocation it has
received, in order. -/
structure RecBuilder where
  recorded : List (String × List JSValue)

/-- Recorder behaviour of a chainable underlying builder: every method
returns a builder object that has the invocation appended. -/
def chainCall (b : RecBuilder) (m : String) (args : List JSValue) : CallResult RecBuilder :=
  CallResult.obj { recorded := b.recorded ++ [(m, args)] }

/-- The proxy-cache state when `cacheProxies: true`: the `WeakMap` from the
identity of an underlying object (modelled as a `Nat` id) to the identity
of its proxy, together with a supply of fresh proxy identities. -/
structure ProxyCacheState where
  cache : List (Nat × Nat)
  nextProxyId : Nat

/-- `WeakMap.prototype.get`: the first entry for the key, if any. -/
def cacheLookup (k : Nat) : List (Nat × Nat) → Option Nat
  | [] => none
  | (k', v) :: rest => if k' = k then some v else cacheLookup k rest

/-- `createQueryProxy(queryBuilder, proxyCache)` with a cache present: if a
proxy for this exact underlying object identity is already cached, return
it; otherwise allocate a fresh proxy (`new Proxy(...)`), record it in the
cache, and return it. -/
def createQueryProxyCached (s : ProxyCacheState) (builderId : Nat) : Nat × ProxyCacheState :=
  match cacheLookup builderId s.cache with
  | some proxyId => (proxyId, s)
  | none =>
    (s.nextProxyId,
      { cache := s.cache ++ [(builderId, s.nextProxyId)], nextProxyId := s.nextProxyId + 1 })

/-- The `CamelCaseDb` constructor's cache initialisation: a (fresh, empty)
`WeakMap` is created exactly when `options.cacheProxies === true`. -/
def mkProxyCache (cacheProxies : Bool) : Option ProxyCacheState :=
  if cacheProxies then some { cache := [], nextProxyId := 0 } else none

/-- A recorded method invocation on an underlying handle. -/
structure MethodCall where
  method : String
  args : List JSValue

/-- The heap of underlying-client objects for the explicit-builder
strategy: a global log of which handle received which invocation (in
program order), plus a supply of fresh object identities for the values the
underlying methods return. -/
structure Heap where
  log : List (Nat × MethodCall)
  nextId : Nat

/-- Invoking a method on the underlying handle `recv`: the invocation is
recorded at once and a fresh object (the underlying client's return value)
is produced. -/
def rawInvoke (h : Heap) (recv : Nat) (c : MethodCall) : Nat × Heap :=
  (h.nextId, { log := h.log ++ [(recv, c)], nextId := h.nextId + 1 })

/-- `BaseFilterBuilder.convertColumn` (explicit-builder strategy):
`Object.keys(keysToSnakeCase({ [column]: null }))[0]!` — the single-entry
object trick that converts one camelCase column name via the recursive key
converter. -/
def convertColumn (column : String) : String :=
  match keysToSnakeCase (JSValue.vObj [(column, JSValue.vNull)]) with
  | JSValue.vObj ((k, _) :: _) => k
  | _ => column

/-- The filter and modifier methods of `BaseFilterBuilder` (explicit-builder
strategy) named by claim C9, each with the caller-side arguments of its
source signature. -/
inductive FilterOp where
  | eq (column : String) (value : JSValue)
  | neq (column : String) (value : JSValue)
  | gt (column : String) (value : JSValue)
  | gte (column : String) (value : JSValue)
  | lt (column : String) (value : JSValue)
  | lte (column : String) (value : JSValue)
  | like (column : String) (pattern : String)
  | likeAllOf (column : String) (patterns : List String)
  | likeAnyOf (column : String) (patterns : List String)
  | ilike (column : String) (pattern : String)
  | ilikeAllOf (column : String) (patterns : List String)
  | ilikeAnyOf (column : String) (patterns : List String)
  | is (column : String) (value : JSValue)
  | inOf (column : String) (values : List JSValue)
  | contains (column : String) (value : JSValue)
  | containedBy (column : String) (value : JSValue)
  | rangeGt (column : String) (range : String)
  | rangeGte (column : String) (range : String)
  | rangeLt (column : String) (range : String)
  | rangeLte (column : String) (range : String)
  | rangeAdjacent (column : String) (range : String)
  | overlaps (column : String) (value : JSValue)
  | textSearch (column : String) (query : String) (options : JSValue)
  | not (column : String) (operator : String) (value : JSValue)
  | filter (column : String) (operator : String) (value : JSValue)
  | order (column : String) (options : JSValue)
  | limit (count : Int)
  | range (first : Int) (last : Int)
  | single
  | maybeSingle

/-- The invocation each `BaseFilterBuilder` method performs on
`this.originalTable`: the column-bearing parameter is converted via
`convertColumn`, every other argument is forwarded as supplied, and
`limit`/`range`/`single`/`maybeSingle` convert nothing. -/
def filterCallOf : FilterOp → MethodCall
  | FilterOp.eq c v => { method := "eq", args := [JSValue.vStr (convertColumn c), v] }
  | FilterOp.neq c v => { method := "neq", args := [JSValue.vStr (convertColumn c), v] }
  | FilterOp.gt c v => { method := "gt", args := [JSValue.vStr (convertColumn c), v] }
  | FilterOp.gte c v => { method := "gte", args := [JSValue.vStr (convertColumn c), v] }
  | FilterOp.lt c v => { method := "lt", args := [JSValue.vStr (convertColumn c), v] }
  | FilterOp.lte c v => { method := "lte", args := [JSValue.vStr (convertColumn c), v] }
  | FilterOp.like c p => { method := "like", args := [JSValue.vStr (convertColumn c), JSValue.vStr p] }
  | FilterOp.likeAllOf c ps =>
    { method := "likeAllOf", args := [JSValue.vStr (convertColumn c), JSValue.vArr (ps.map JSValue.vStr)] }
  | FilterOp.likeAnyOf c ps =>
    { method := "likeAnyOf", args := [JSValue.vStr (convertColumn c), JSValue.vArr (ps.map JSValue.vStr)] }
  | FilterOp.ilike c p => { method := "ilike", args := [JSValue.vStr (convertColumn c), JSValue.vStr p] }
  | FilterOp.ilikeAllOf c ps =>
    { method := "ilikeAllOf", args := [JSValue.vStr (convertColumn c), JSValue.vArr (ps.map JSValue.vStr)] }
  | FilterOp.ilikeAnyOf c ps =>
    { method := "ilikeAnyOf", args := [JSValue.vStr (convertColumn c), JSValue.vArr (ps.map JSValue.vStr)] }
  | FilterOp.is c v => { method := "is", args := [JSValue.vStr (convertColumn c), v] }
  | FilterOp.inOf c vs => { method := "in", args := [JSValue.vStr (convertColumn c), JSValue.vArr vs] }
  | FilterOp.contains c v => { method := "contains", args := [JSValue.vStr (convertColumn c), v] }
  | FilterOp.containedBy c v => { method := "containedBy", args := [JSValue.vStr (convertColumn c), v] }
  | FilterOp.rangeGt c r => { method := "rangeGt", args := [JSValue.vStr (convertColumn c), JSValue.vStr r] }
  | FilterOp.rangeGte c r => { method := "rangeGte", args := [JSValue.vStr (convertColumn c), JSValue.vStr r] }
  | FilterOp.rangeLt c r => { method := "rangeLt", args := [JSValue.vStr (convertColumn c), JSValue.vStr r] }
  | FilterOp.rangeLte c r => { method := "rangeLte", args := [JSValue.vStr (convertColumn c), JSValue.vStr r] }
  | FilterOp.rangeAdjacent c r =>
    { method := "rangeAdjacent", args := [JSValue.vStr (convertColumn c), JSValue.vStr r] }
  | FilterOp.overlaps c v => { method := "overlaps", args := [JSValue.vStr (convertColumn c), v] }
  | FilterOp.textSearch c q o =>
    { method := "textSearch", args := [JSValue.vStr (convertColumn c), JSValue.vStr q, o] }
  | FilterOp.not c op v =>
    { method := "not", args := [JSValue.vStr (convertColumn c), JSValue.vStr op, v] }
  | FilterOp.filter c op v =>
    { method := "filter", args := [JSValue.vStr (convertColumn c), JSValue.vStr op, v] }
  | FilterOp.order c o => { method := "order", args := [JSValue.vStr (convertColumn c), o] }
  | FilterOp.limit n => { method := "limit", args := [JSValue.vInt n] }
  | FilterOp.range a b => { method := "range", args := [JSValue.vInt a, JSValue.vInt b] }
  | FilterOp.single => { method := "single", args := [] }
  | FilterOp.maybeSingle => { method := "maybeSingle", args := [] }

/-- An explicit-strategy builder: it holds only the reference to the single
underlying table handle captured at `from()` (`this.originalTable`). -/
structure ExplicitBuilder where
  tableId : Nat

/-- One `BaseFilterBuilder` method call: the corresponding method is
invoked on `this.originalTable` at once, the underlying return value is
discarded, and the receiver itself is returned (`return this`). -/
def applyFilter (b : ExplicitBuilder) (h : Heap) (op : FilterOp) : ExplicitBuilder × Heap :=
  let step := rawInvoke h b.tableId (filterCallOf op)
  (b, step.2)

/-- A chain of filter/modifier calls, performed before any terminal
resolution. -/
def applyChain (b : ExplicitBuilder) (h : Heap) : List FilterOp → ExplicitBuilder × Heap
  | [] => (b, h)
  | op :: rest =>
    let step := applyFilter b h op
    applyChain step.1 step.2 rest

/-- The state of a `CamelCaseSelectQueryBuilder`: the shared underlying
table handle and the stored caller query string. -/
structure SelectBuilder where
  tableId : Nat
  query : Option String

/-- `CamelCaseTableQueryBuilder.select(query)`: constructs a new
`CamelCaseSelectQueryBuilder(this.originalTable, query)`; no underlying
method is invoked, so the heap is untouched. -/
def tableSelect (b : ExplicitBuilder) (q : Option String) (h : Heap) : SelectBuilder × Heap :=
  ({ tableId := b.tableId, query := q }, h)

/-- The `query?: string` argument as passed on to the underlying
`select`. -/
def queryArg : Option String → JSValue
  | some q => JSValue.vStr q
  | none => JSValue.vUndefined

/-- The underlying invocation performed by
`CamelCaseSelectQueryBuilder.then`: a single
`this.originalTable.select(this.query)` call with the stored query passed
verbatim. -/
def selectThen (sb : SelectBuilder) (h : Heap) : Nat × Heap :=
  rawInvoke h sb.tableId { method := "select", args := [queryArg sb.query] }

/-- The amended C5 rule, stated from the spec's words with the position-0
restriction removed: mark each uppercase letter (at any position, position 0
included) with a preceding `'_'`. -/
def specMarkUppercase : List Char → List Char
  | [] => []
  | c :: rest =>
    if c.isUpper then '_' :: c :: specMarkUppercase rest
    else c :: specMarkUppercase rest

/-- The amended C5 rule as a whole-string conversion: insert `'_'` before
each uppercase letter at every position, then lowercase all letters. -/
def specSnakeAllPos (s : String) : String :=
  String.mk ((specMarkUppercase s.data).map Char.toLower)

/-- A filter/modifier method called on a `CamelCaseSelectQueryBuilder`
(which inherits `BaseFilterBuilder`): eager invocation on the shared
underlying handle, return value discarded, receiver returned. -/
def applySelectFilter (sb : SelectBuilder) (h : Heap) (op : FilterOp) : SelectBuilder × Heap :=
  let step := rawInvoke h sb.tableId (filterCallOf op)
  (sb, step.2)

/-- A chain of filter/modifier calls on a select builder, before its
terminal resolution. -/
def applySelectChain (sb : SelectBuilder) (h : Heap) : List FilterOp → SelectBuilder × Heap
  | [] => (sb, h)
  | op :: rest =>
    let step := applySelectFilter sb h op
    applySelectChain step.1 step.2 rest

theorem toLower_eq_self_of_not_upper (c : Char) (h : c.isUpper = false) :
    c.toLower = c := by
  unfold Char.toLower
  rw [if_neg]
  intro hc
  simp [Char.isUpper, UInt32.le_def, BitVec.le_def, UInt32.toNat, Char.toNat] at h hc
  omega

theorem processArg_succ (i : Nat) (a : JSValue) : processArg (i + 1) a = a := by
  simp [processArg]

theorem mapWithIndexFrom_processArg_succ (rest : List JSValue) (i : Nat) :
    mapWithIndexFrom processArg (i + 1) rest = rest := by
  induction rest generalizing i with
  | nil => rfl
  | cons a tl ih =>
    simp [mapWithIndexFrom, processArg_succ, ih]

theorem processArgs_cons (a : JSValue) (rest : List JSValue) :
    processArgs (a :: rest) = processArg 0 a :: rest := by
  simp [processArgs, mapWithIndexFrom, mapWithIndexFrom_processArg_succ]

/-- C2: through the dynamic façade only the first argument is ever
transformed — a string first argument goes through the column converter
(with its exclusion rules), a plain object or array first argument goes
through the recursive key converter, any other first argument (number,
boolean, `null`, `undefined`, symbol, `Date`/`AbortSignal`-like non-plain
object) is forwarded untouched, and every argument after the first —
including the `upsert` options object — is forwarded untouched. -/
theorem c2_argument_classification :
    (∀ (a : JSValue) (rest : List JSValue), processArgs (a :: rest) = processArg 0 a :: rest) ∧
    processArgs [] = [] ∧
    (∀ s, processArg 0 (JSValue.vStr s) = JSValue.vStr (convertColumnToSnakeCase (ColumnRef.str s))) ∧
    (∀ fields, processArg 0 (JSValue.vObj fields) = keysToSnakeCase (JSValue.vObj fields)) ∧
    (∀ elems, processArg 0 (JSValue.vArr elems) = keysToSnakeCase (JSValue.vArr elems)) ∧
    (∀ n, processArg 0 (JSValue.vInt n) = JSValue.vInt n) ∧
    (∀ b, processArg 0 (JSValue.vBool b) = JSValue.vBool b) ∧
    processArg 0 JSValue.vNull = JSValue.vNull ∧
    processArg 0 JSValue.vUndefined = JSValue.vUndefined ∧
    (∀ t, processArg 0 (JSValue.vSpecial t) = JSValue.vSpecial t) ∧
    (∀ d, processArg 0 (JSValue.vSym d) = JSValue.vSym d) ∧
    (∀ payload opts, processArgs [JSValue.vObj payload, JSValue.vObj opts] =
      [keysToSnakeCase (JSValue.vObj payload), JSValue.vObj opts]) := by
  refine ⟨processArgs_cons, rfl, fun s => rfl, fun fields => rfl, fun elems => rfl,
    fun n => rfl, fun b => rfl, rfl, rfl, fun t => rfl, fun d => rfl, fun payload opts => ?_⟩
  rw [processArgs_cons]
  rfl

/-- C8: a symbol supplied where a column reference is expected is never
case-converted: the classifier forwards it untouched at every argument
position, and through the façade the underlying method receives the very
same symbol, while only string column references reach
`convertColumnToSnakeCase`. -/
theorem c8_symbol_passthrough :
    (∀ i d, processArg i (JSValue.vSym d) = JSValue.vSym d) ∧
    (∀ d (rest : List JSValue), processArgs (JSValue.vSym d :: rest) = JSValue.vSym d :: rest) ∧
    (∀ (rec : List (String × List JSValue)) (m : String) (d : String) (vs : List JSValue),
      proxyInvoke chainCall (createQueryProxy { recorded := rec }) m (JSValue.vSym d :: vs) =
        CallResult.obj (createQueryProxy { recorded := rec ++ [(m, JSValue.vSym d :: vs)] })) ∧
    (∀ s, processArg 0 (JSValue.vStr s) = JSValue.vStr (convertColumnToSnakeCase (ColumnRef.str s))) := by
  refine ⟨?_, ?_, ?_, fun s => rfl⟩
  · intro i d
    match i with
    | 0 => rfl
    | i + 1 => exact processArg_succ i _
  · intro d rest
    rw [processArgs_cons]
    rfl
  · intro rec m d vs
    simp [proxyInvoke, chainCall, createQueryProxy, processArgs_cons]
    rfl

/-- C4: the exclusion rules of the column-conversion path — the wildcard
`'*'`, a string containing `'_'`, `'('`, `')'`, `'.'`, `'->'` or `'::'` is
returned unchanged; in particular `'*'` converts to `'*'`. -/
theorem c4_exclusion_rules :
    (∀ s : String,
      (s = "*" ∨ s.data.contains '_' = true ∨ s.data.contains '(' = true ∨
        s.data.contains ')' = true ∨ s.data.contains '.' = true ∨
        hasSub2 '-' '>' s.data = true ∨ hasSub2 ':' ':' s.data = true) →
      convertColumnToSnakeCase (ColumnRef.str s) = s) ∧
    convertColumnToSnakeCase (ColumnRef.str "*") = "*" := by
  constructor
  · intro s h
    have hb : isSpecialColumnPattern s = true := by
      unfold isSpecialColumnPattern
      simp only [Bool.or_eq_true, decide_eq_true_eq]
      rcases h with h | h | h | h | h | h | h <;> tauto
    simp [convertColumnToSnakeCase, hb]
  · rfl

/-- Witness for C4 at the concrete nested-column reference `"meta.data"`. -/
theorem c4_exclusion_rules_witness :
    convertColumnToSnakeCase (ColumnRef.str "meta.data") = "meta.data" :=
  c4_exclusion_rules.1 "meta.data"
    (Or.inr (Or.inr (Or.inr (Or.inr (Or.inl (by decide))))))

theorem replaceUpperChars_eq_mark_map (cs : List Char) :
    replaceUpperChars cs = (specMarkUppercase cs).map Char.toLower := by
  induction cs with
  | nil => rfl
  | cons c rest ih =>
    by_cases hc : c.isUpper = true
    · simp [replaceUpperChars, specMarkUppercase, hc, ih]
    · rw [Bool.not_eq_true] at hc
      simp [replaceUpperChars, specMarkUppercase, hc, ih,
        toLower_eq_self_of_not_upper c hc]

/-- Counterexample for C5: the source conversion inserts `'_'` before an
uppercase letter *at position 0 as well*, whereas the claim's stated rule
("insert `'_'` before each uppercase letter not at position 0, then
lowercase all letters" — the function `toBackingCase` here) does not: at
the non-excluded input `"ID"` the code yields `"_i_d"`, the claimed rule
yields `"i_d"`. -/
theorem c5_counterexample :
    isSpecialColumnPattern "ID" = false ∧
    convertColumnToSnakeCase (ColumnRef.str "ID") = "_i_d" ∧
    toBackingCase "ID" = "i_d" ∧
    convertColumnToSnakeCase (ColumnRef.str "ID") ≠ toBackingCase "ID" := by
  refine ⟨by decide, by decide, by decide, by decide⟩

/-- C5 as amended: applied to any string that passes the exclusion check,
the conversion inserts `'_'` before each uppercase letter at *every*
position, position 0 included, and then lowercases all letters; under that
rule `'userId'` maps to `'user_id'` and `'ID'` maps to `'_i_d'`. -/
theorem c5_amended_conversion_rule :
    (∀ s : String, isSpecialColumnPattern s = false →
      convertColumnToSnakeCase (ColumnRef.str s) = specSnakeAllPos s) ∧
    convertColumnToSnakeCase (ColumnRef.str "userId") = "user_id" ∧
    convertColumnToSnakeCase (ColumnRef.str "ID") = "_i_d" := by
  refine ⟨?_, by decide, by decide⟩
  intro s h
  simp [convertColumnToSnakeCase, h, specSnakeAllPos, replaceUpperChars_eq_mark_map]

/-- Witness for the amended C5 at the concrete input `"userId"`. -/
theorem c5_amended_conversion_rule_witness :
    convertColumnToSnakeCase (ColumnRef.str "userId") = specSnakeAllPos "userId" :=
  c5_amended_conversion_rule.1 "userId" (by decide)

/-- C1: an envelope resolved by the underlying terminal call reaches the
awaiting caller with `data` recursively key-converted to camelCase when
non-null, `data = null` when the underlying `data` is null, and `error`,
`count`, `status`, `statusText` passed through exactly; includes the spec's
concrete example envelope. -/
theorem c1_envelope_transformation :
    (∀ r : Envelope,
      (transformEnvelope r).error = r.error ∧
      (transformEnvelope r).count = r.count ∧
      (transformEnvelope r).status = r.status ∧
      (transformEnvelope r).statusText = r.statusText ∧
      proxyThen (Except.ok r) = Except.ok (transformEnvelope r) ∧
      selectBuilderAwait (Except.ok r) = Except.ok (transformEnvelope r) ∧
      (r.data = JSValue.vNull → (transformEnvelope r).data = JSValue.vNull) ∧
      (∀ rows, r.data = JSValue.vArr rows →
        (transformEnvelope r).data = JSValue.vArr (camelCaseElems rows))) ∧
    transformEnvelope
        { data := JSValue.vArr
            [JSValue.vObj [("user_id", JSValue.vStr "1"), ("is_active", JSValue.vBool true)]],
          error := JSValue.vNull, count := JSValue.vNull, status := 200, statusText := "OK" } =
      { data := JSValue.vArr
          [JSValue.vObj [("userId", JSValue.vStr "1"), ("isActive", JSValue.vBool true)]],
        error := JSValue.vNull, count := JSValue.vNull, status := 200, statusText := "OK" } := by
  constructor
  · intro r
    refine ⟨rfl, rfl, rfl, rfl, rfl, rfl, ?_, ?_⟩
    · intro h
      simp [transformEnvelope, h, isNullish]
    · intro rows h
      simp [transformEnvelope, h, isNullish, keysToCamelCase]
  · rfl

/-- Witness for C1 at the spec's example envelope. -/
theorem c1_envelope_transformation_witness :
    (transformEnvelope
        { data := JSValue.vArr
            [JSValue.vObj [("user_id", JSValue.vStr "1"), ("is_active", JSValue.vBool true)]],
          error := JSValue.vNull, count := JSValue.vNull, status := 200, statusText := "OK" }).data =
      JSValue.vArr (camelCaseElems
        [JSValue.vObj [("user_id", JSValue.vStr "1"), ("is_active", JSValue.vBool true)]]) :=
  (c1_envelope_transformation.1 _).2.2.2.2.2.2.2 _ rfl

/-- C6: the façade adds no error handling — a rejection of the underlying
terminal call propagates with the same reason through both the proxy's
intercepted `then` and the explicit builder's `then`, and a resolution
carrying a non-null `error` keeps that error exactly (with `data` null when
the underlying `data` is null). -/
theorem c6_error_passthrough :
    (∀ e : JSValue, proxyThen (Except.error e) = Except.error e) ∧
    (∀ e : JSValue, selectBuilderAwait (Except.error e) = Except.error e) ∧
    (∀ r : Envelope, r.error ≠ JSValue.vNull →
      (transformEnvelope r).error = r.error ∧
      (r.data = JSValue.vNull → (transformEnvelope r).data = JSValue.vNull)) := by
  refine ⟨fun e => rfl, fun e => rfl, ?_⟩
  intro r _
  refine ⟨rfl, ?_⟩
  intro h
  simp [transformEnvelope, h, isNullish]

/-- Witness for C6 at the rejection reason `"boom"` and the spec's example
error envelope. -/
theorem c6_error_passthrough_witness :
    proxyThen (Except.error (JSValue.vStr "boom")) = Except.error (JSValue.vStr "boom") ∧
    (transformEnvelope
        { data := JSValue.vNull, error := JSValue.vObj [("message", JSValue.vStr "boom")],
          count := JSValue.vNull, status := 400, statusText := "Bad Request" }).error =
      JSValue.vObj [("message", JSValue.vStr "boom")] ∧
    (transformEnvelope
        { data := JSValue.vNull, error := JSValue.vObj [("message", JSValue.vStr "boom")],
          count := JSValue.vNull, status := 400, statusText := "Bad Request" }).data =
      JSValue.vNull :=
  ⟨c6_error_passthrough.1 _,
    (c6_error_passthrough.2.2 _ (fun h => JSValue.noConfusion h)).1,
    (c6_error_passthrough.2.2 _ (fun h => JSValue.noConfusion h)).2 rfl⟩

/-- C3: an object-valued result of the underlying method comes back from
the façade re-wrapped by the same wrap procedure, a non-object result comes
back unchanged, and chaining therefore stays name-converted:
`wrap(x).eq('userId', 1)` invokes underlying `eq('user_id', 1)` and a
subsequent `.order('createdAt')` on the re-wrapped result invokes
underlying `order('created_at')`. -/
theorem c3_result_rewrapping :
    (∀ (B : Type) (call : B → String → List JSValue → CallResult B) (f : Facade B)
        (m : String) (args : List JSValue),
      (∀ r, call f.underlying m (processArgs args) = CallResult.obj r →
        proxyInvoke call f m args = CallResult.obj (createQueryProxy r)) ∧
      (∀ v, call f.underlying m (processArgs args) = CallResult.prim v →
        proxyInvoke call f m args = CallResult.prim v)) ∧
    (∀ (rec : List (String × List JSValue)) (v₁ : JSValue),
      proxyInvoke chainCall (createQueryProxy { recorded := rec }) "eq"
          [JSValue.vStr "userId", v₁] =
        CallResult.obj (createQueryProxy
          { recorded := rec ++ [("eq", [JSValue.vStr "user_id", v₁])] })) ∧
    (∀ (rec : List (String × List JSValue)) (v₁ : JSValue) (f₂ : Facade RecBuilder),
      proxyInvoke chainCall (createQueryProxy { recorded := rec }) "eq"
          [JSValue.vStr "userId", v₁] = CallResult.obj f₂ →
      proxyInvoke chainCall f₂ "order" [JSValue.vStr "createdAt"] =
        CallResult.obj (createQueryProxy
          { recorded := rec ++ [("eq", [JSValue.vStr "user_id", v₁]),
              ("order", [JSValue.vStr "created_at"])] })) := by
  refine ⟨?_, ?_, ?_⟩
  · intro B call f m args
    constructor
    · intro r h
      simp [proxyInvoke, h]
    · intro v h
      simp [proxyInvoke, h]
  · intro rec v₁
    rfl
  · intro rec v₁ f₂ h
    have hf : f₂ = createQueryProxy { recorded := rec ++ [("eq", [JSValue.vStr "user_id", v₁])] } := by
      have hstep : proxyInvoke chainCall (createQueryProxy { recorded := rec }) "eq"
          [JSValue.vStr "userId", v₁] =
          CallResult.obj (createQueryProxy
            { recorded := rec ++ [("eq", [JSValue.vStr "user_id", v₁])] }) := rfl
      rw [hstep] at h
      injection h with h2
      exact h2.symm
    subst hf
    have : proxyInvoke chainCall
        (createQueryProxy { recorded := rec ++ [("eq", [JSValue.vStr "user_id", v₁])] })
        "order" [JSValue.vStr "createdAt"] =
        CallResult.obj (createQueryProxy
          { recorded := (rec ++ [("eq", [JSValue.vStr "user_id", v₁])]) ++
              [("order", [JSValue.vStr "created_at"])] }) := rfl
    rw [this, List.append_assoc]
    rfl

/-- Witness for C3: the second chained step at a concrete recorder. -/
theorem c3_result_rewrapping_witness :
    proxyInvoke chainCall
        (createQueryProxy { recorded := [("eq", [JSValue.vStr "user_id", JSValue.vInt 1])] })
        "order" [JSValue.vStr "createdAt"] =
      CallResult.obj (createQueryProxy
        { recorded := [("eq", [JSValue.vStr "user_id", JSValue.vInt 1]),
            ("order", [JSValue.vStr "created_at"])] }) :=
  c3_result_rewrapping.2.2 [] (JSValue.vInt 1) _ rfl

theorem cacheLookup_append_left {k v : Nat} {l l' : List (Nat × Nat)}
    (h : cacheLookup k l = some v) : cacheLookup k (l ++ l') = some v := by
  induction l with
  | nil => exact absurd h (by simp [cacheLookup])
  | cons hd tl ih =>
    obtain ⟨k', v'⟩ := hd
    by_cases hk : k' = k
    · simp [cacheLookup, hk] at h ⊢
      exact h
    · simp [cacheLookup, hk] at h ⊢
      exact ih h

theorem cacheLookup_append_right {k : Nat} {l l' : List (Nat × Nat)}
    (h : cacheLookup k l = none) : cacheLookup k (l ++ l') = cacheLookup k l' := by
  induction l with
  | nil => rfl
  | cons hd tl ih =>
    obtain ⟨k', v'⟩ := hd
    by_cases hk : k' = k
    · simp [cacheLookup, hk] at h
    · simp [cacheLookup, hk] at h ⊢
      exact ih h

/-- C7: with `cacheProxies: true` a fresh `WeakMap` cache is installed, and
wrapping is idempotent on object identity — wrapping the same underlying
object a second time (with an arbitrary other wrap in between, e.g. for a
self-returning chained method) returns the very proxy the first wrapping
produced. -/
theorem c7_cache_idempotent :
    mkProxyCache true = some { cache := [], nextProxyId := 0 } ∧
    ∀ (s : ProxyCacheState) (b c : Nat),
      (createQueryProxyCached
          ((createQueryProxyCached ((createQueryProxyCached s b).2) c).2) b).1 =
        (createQueryProxyCached s b).1 := by
  refine ⟨rfl, ?_⟩
  intro s b c
  cases h1 : cacheLookup b s.cache with
  | some p =>
    have hfirst : createQueryProxyCached s b = (p, s) := by
      simp [createQueryProxyCached, h1]
    rw [hfirst]
    cases h2 : cacheLookup c s.cache with
    | some q =>
      have hsecond : createQueryProxyCached s c = (q, s) := by
        simp [createQueryProxyCached, h2]
      rw [hsecond, hfirst]
    | none =>
      have hsecond : createQueryProxyCached s c =
          (s.nextProxyId,
            { cache := s.cache ++ [(c, s.nextProxyId)], nextProxyId := s.nextProxyId + 1 }) := by
        simp [createQueryProxyCached, h2]
      rw [hsecond]
      have h3 : cacheLookup b (s.cache ++ [(c, s.nextProxyId)]) = some p :=
        cacheLookup_append_left h1
      simp [createQueryProxyCached, h3]
  | none =>
    have hfirst : createQueryProxyCached s b =
        (s.nextProxyId,
          { cache := s.cache ++ [(b, s.nextProxyId)], nextProxyId := s.nextProxyId + 1 }) := by
      simp [createQueryProxyCached, h1]
    rw [hfirst]
    have hb1 : cacheLookup b (s.cache ++ [(b, s.nextProxyId)]) = some s.nextProxyId := by
      rw [cacheLookup_append_right h1]
      simp [cacheLookup]
    cases h2 : cacheLookup c (s.cache ++ [(b, s.nextProxyId)]) with
    | some q =>
      have hsecond : createQueryProxyCached
          { cache := s.cache ++ [(b, s.nextProxyId)], nextProxyId := s.nextProxyId + 1 } c =
          (q, { cache := s.cache ++ [(b, s.nextProxyId)], nextProxyId := s.nextProxyId + 1 }) := by
        simp [createQueryProxyCached, h2]
      rw [hsecond]
      simp [createQueryProxyCached, hb1]
    | none =>
      have hsecond : createQueryProxyCached
          { cache := s.cache ++ [(b, s.nextProxyId)], nextProxyId := s.nextProxyId + 1 } c =
          (s.nextProxyId + 1,
            { cache := (s.cache ++ [(b, s.nextProxyId)]) ++ [(c, s.nextProxyId + 1)],
              nextProxyId := s.nextProxyId + 2 }) := by
        simp [createQueryProxyCached, h2]
      rw [hsecond]
      have h3 : cacheLookup b ((s.cache ++ [(b, s.nextProxyId)]) ++ [(c, s.nextProxyId + 1)]) =
          some s.nextProxyId := cacheLookup_append_left hb1
      rw [List.append_assoc] at h3
      simp only [List.singleton_append] at h3
      simp [createQueryProxyCached, h3]

/-- C9: every filter/modifier method of the explicit-builder strategy
eagerly invokes the corresponding method on the single underlying table
handle captured at `from()`, discards the underlying return value and
returns the receiver itself; a whole chain therefore acts on that one
shared handle, each call recorded at the moment it is made, before and
independently of any terminal await. -/
theorem c9_eager_shared_handle :
    (∀ (b : ExplicitBuilder) (h : Heap) (op : FilterOp),
      (applyFilter b h op).1 = b ∧
      (applyFilter b h op).2.log = h.log ++ [(b.tableId, filterCallOf op)] ∧
      (applyFilter b h op).2.nextId = h.nextId + 1) ∧
    (∀ (b : ExplicitBuilder) (h : Heap) (ops : List FilterOp),
      (applyChain b h ops).1 = b ∧
      (applyChain b h ops).2.log =
        h.log ++ ops.map (fun op => (b.tableId, filterCallOf op))) := by
  constructor
  · intro b h op
    exact ⟨rfl, rfl, rfl⟩
  · intro b h ops
    induction ops generalizing h with
    | nil => exact ⟨rfl, by simp [applyChain]⟩
    | cons op rest ih =>
      obtain ⟨ih1, ih2⟩ := ih (Heap.mk (h.log ++ [(b.tableId, filterCallOf op)]) (h.nextId + 1))
      refine ⟨ih1, ?_⟩
      calc (applyChain b h (op :: rest)).2.log
          = h.log ++ [(b.tableId, filterCallOf op)] ++
              rest.map (fun op => (b.tableId, filterCallOf op)) := ih2
        _ = h.log ++ (op :: rest).map (fun op => (b.tableId, filterCallOf op)) := by
            simp

/-- C10: `select(query)` performs no underlying call at chain-building time
and stores the caller's query string; no filter/modifier of a chain ever
invokes the underlying `select`; the underlying `select` is invoked exactly
once, at terminal (await) time, and receives the stored query string
verbatim (no case conversion is applied to it). -/
theorem c10_deferred_select :
    (∀ (b : ExplicitBuilder) (q : Option String) (h : Heap),
      tableSelect b q h = (SelectBuilder.mk b.tableId q, h)) ∧
    (∀ (sb : SelectBuilder) (h : Heap),
      (selectThen sb h).2.log =
        h.log ++ [(sb.tableId, MethodCall.mk "select" [queryArg sb.query])]) ∧
    (∀ op : FilterOp, (filterCallOf op).method ≠ "select") ∧
    (∀ (b : ExplicitBuilder) (q : String) (h : Heap) (ops : List FilterOp),
      (selectThen (applySelectChain (tableSelect b (some q) h).1 h ops).1
          (applySelectChain (tableSelect b (some q) h).1 h ops).2).2.log =
        h.log ++ ops.map (fun op => (b.tableId, filterCallOf op)) ++
          [(b.tableId, MethodCall.mk "select" [JSValue.vStr q])]) := by
  refine ⟨fun b q h => rfl, fun sb h => rfl, ?_, ?_⟩
  · intro op
    cases op <;>
      · intro hc
        simp only [filterCallOf] at hc
        exact absurd hc (by decide)
  · intro b q h ops
    have hchain : ∀ (sb : SelectBuilder) (h' : Heap) (ops' : List FilterOp),
        (applySelectChain sb h' ops').1 = sb ∧
        (applySelectChain sb h' ops').2.log =
          h'.log ++ ops'.map (fun op => (sb.tableId, filterCallOf op)) := by
      intro sb h' ops'
      induction ops' generalizing h' with
      | nil => exact ⟨rfl, by simp [applySelectChain]⟩
      | cons op rest ih =>
        obtain ⟨ih1, ih2⟩ := ih (Heap.mk (h'.log ++ [(sb.tableId, filterCallOf op)]) (h'.nextId + 1))
        refine ⟨ih1, ?_⟩
        calc (applySelectChain sb h' (op :: rest)).2.log
            = h'.log ++ [(sb.tableId, filterCallOf op)] ++
                rest.map (fun op => (sb.tableId, filterCallOf op)) := ih2
          _ = h'.log ++ (op :: rest).map (fun op => (sb.tableId, filterCallOf op)) := by
              simp
    obtain ⟨hc1, hc2⟩ := hchain (SelectBuilder.mk b.tableId (some q)) h ops
    have hts : (tableSelect b (some q) h).1 = SelectBuilder.mk b.tableId (some q) := rfl
    rw [hts, hc1]
    have hsel : ∀ h2 : Heap,
        (selectThen (SelectBuilder.mk b.tableId (some q)) h2).2.log =
          h2.log ++ [(b.tableId, MethodCall.mk "select" [JSValue.vStr q])] := fun h2 => rfl
    rw [hsel, hc2]

/-- Witness for C10: the modifier `single` does not invoke the underlying
`select`. -/
theorem c10_deferred_select_witness :
    (filterCallOf FilterOp.single).method ≠ "select" :=
  c10_deferred_select.2.2.1 FilterOp.single
